import Mathlib

/-!
Shallow embedding of the GripLab core (src/core/dataio.py, src/converters/*.py)
and proofs about it.

Modelling decisions, applied uniformly:
* numpy float64 arithmetic is idealized over `ℚ`; float literals from the
  source are taken as exact rationals (`math.pi` is taken as the exact value
  of its IEEE-754 double).
* A data matrix is stored column-major: `Mat` is the list of columns, so
  `data.length` is numpy's `data.shape[1]` and every column is a list of the
  row values of one channel.
* Python dicts are insertion-ordered association lists with unique keys; the
  uniqueness invariant appears as a `Nodup` hypothesis where it matters.
* Index errors on misaligned inputs (which CPython raises and the converters
  catch, returning the input) are outside the modelled domain; theorems carry
  the alignment hypotheses that every really-constructed `Dataset` satisfies.
-/

namespace GripLab

/-- One column of a data matrix (the samples of one channel). -/
abbrev Col := List ℚ

/-- A data matrix, stored as its list of columns. -/
abbrev Mat := List Col

/-- Indexed map over a list, the index starting at `i`.  Used to model loops
of the form `for idx, channel in enumerate(...)` acting on the columns. -/
def mapi (f : ℕ → α → β) : ℕ → List α → List β
  | _, [] => []
  | i, a :: l => f i a :: mapi f (i + 1) l

/-- Whether the first list is an initial segment of the second. -/
def starts_with : List Char → List Char → Bool
  | [], _ => true
  | _ :: _, [] => false
  | p :: ps, c :: cs => p == c && starts_with ps cs

/-- Whether `pat` occurs contiguously inside `s`. -/
def occurs_in (pat : List Char) : List Char → Bool
  | [] => starts_with pat []
  | c :: cs => starts_with pat (c :: cs) || occurs_in pat cs

/-- Python's substring test `pat in s`, over the character lists of the two
strings. -/
def contains_substr (pat s : String) : Bool :=
  occurs_in pat.data s.data

/-- Lookup in an association list; models Python `dict` read access /
`dict.get` for the small constant tables of the converters. -/
def lookupTable (t : List (String × α)) (k : String) : Option α :=
  (t.find? (fun p => p.1 = k)).map Prod.snd

/-! ## core/dataio.py — `Dataset` -/

/-- Container for tire test data (`Dataset` dataclass in core/dataio.py). -/
structure Dataset where
  path : String
  name : String
  channels : List String
  units : List String
  unit_types : List String
  data : Mat
  tire_id : String
  rim_width : Int
  unit_system : String
  sign_convention : String
  node_color : String
  notes : String := ""
  demo_name : String := "Demo data"
  demo_tire_id : String := "Brand, Compound, Size"
  demo_rim_width : Int := 0
  demo_notes : String := ""
deriving Repr, DecidableEq

/-- `Dataset.__post_init__`: dataclass construction followed by validation.
Raising `ValueError` is modelled by `Except.error`.  Note the source checks
`len(channels) == len(units)` and `len(channels) == data.shape[1]` only;
`unit_types` is not validated. -/
def mkDataset (path name : String) (channels units unit_types : List String)
    (data : Mat) (tire_id : String) (rim_width : Int)
    (unit_system sign_convention node_color notes : String) :
    Except String Dataset :=
  if channels.length ≠ units.length then
    .error "Channels and units must have same length"
  else if channels.length ≠ data.length then
    .error "Number of channels must match data columns"
  else
    .ok { path := path, name := name, channels := channels, units := units,
          unit_types := unit_types, data := data, tire_id := tire_id,
          rim_width := rim_width, unit_system := unit_system,
          sign_convention := sign_convention, node_color := node_color,
          notes := notes }

/-! ## converters/conventions.py — `ConventionConverter` -/

/-- Sign convention multipliers relative to the SAE baseline
(`ConventionConverter.SIGN_DEFINITIONS`). -/
def SIGN_DEFINITIONS : List (String × List (String × Int)) :=
  [("IA", [("SAE", 1), ("Adapted SAE", 1), ("ISO", 1), ("Adapted ISO", -1)]),
   ("SA", [("SAE", 1), ("Adapted SAE", -1), ("ISO", -1), ("Adapted ISO", 1)]),
   ("SR", [("SAE", 1), ("Adapted SAE", 1), ("ISO", 1), ("Adapted ISO", 1)]),
   ("SL", [("SAE", 1), ("Adapted SAE", 1), ("ISO", 1), ("Adapted ISO", 1)]),
   ("FX", [("SAE", 1), ("Adapted SAE", 1), ("ISO", 1), ("Adapted ISO", 1)]),
   ("FY", [("SAE", 1), ("Adapted SAE", 1), ("ISO", -1), ("Adapted ISO", -1)]),
   ("FZ", [("SAE", 1), ("Adapted SAE", -1), ("ISO", -1), ("Adapted ISO", -1)]),
   ("MX", [("SAE", 1), ("Adapted SAE", 1), ("ISO", 1), ("Adapted ISO", 1)]),
   ("MY", [("SAE", 1), ("Adapted SAE", 1), ("ISO", -1), ("Adapted ISO", -1)]),
   ("MZ", [("SAE", 1), ("Adapted SAE", 1), ("ISO", -1), ("Adapted ISO", -1)]),
   ("CmdIA", [("SAE", 1), ("Adapted SAE", 1), ("ISO", 1), ("Adapted ISO", -1)]),
   ("CmdSA", [("SAE", 1), ("Adapted SAE", -1), ("ISO", -1), ("Adapted ISO", 1)]),
   ("CmdFZ", [("SAE", 1), ("Adapted SAE", -1), ("ISO", -1), ("Adapted ISO", -1)])]

/-- `ConventionConverter.SUPPORTED_CONVENTIONS`. -/
def SUPPORTED_CONVENTIONS : List String :=
  ["SAE", "Adapted SAE", "ISO", "Adapted ISO"]

/-- `ConventionConverter.validate_convention`. -/
abbrev validate_convention (convention : String) : Prop :=
  convention ∈ SUPPORTED_CONVENTIONS

/-- The sign computed from one channel's definition row (the body of
`get_multiplier` after the table lookup); Python `//` is `Int.fdiv`. -/
def multiplier_of_row (row : List (String × Int))
    (from_convention to_convention : String) : Int :=
  let from_sign := (lookupTable row from_convention).getD 1
  let to_sign := (lookupTable row to_convention).getD 1
  if from_sign ≠ 0 then to_sign.fdiv from_sign else 1

/-- `ConventionConverter.get_multiplier`. -/
def get_multiplier (channel from_convention to_convention : String) : Int :=
  if from_convention = to_convention then 1
  else
    match lookupTable SIGN_DEFINITIONS channel with
    | none => 1
    | some row => multiplier_of_row row from_convention to_convention

/-- The per-column action of the conversion loop in
`convert_dataset_convention` / `convert_channel_convention`:
`result.data[:, idx] *= multiplier` for channels present in the sign table. -/
def convention_col (channels : List String)
    (current_convention target_convention : String) (idx : ℕ) (col : Col) :
    Col :=
  match channels.get? idx with
  | none => col
  | some channel =>
      if (lookupTable SIGN_DEFINITIONS channel).isSome then
        let m := get_multiplier channel current_convention target_convention
        if m ≠ 1 then col.map (fun x => x * (m : ℚ)) else col
      else col

/-- `ConventionConverter.convert_dataset_convention`. -/
def convert_dataset_convention (d : Dataset) (target_convention : String) :
    Dataset :=
  if d.sign_convention = target_convention then d
  else if ¬ validate_convention target_convention then d
  else
    { d with
      data := mapi (convention_col d.channels d.sign_convention
                      target_convention) 0 d.data,
      sign_convention := target_convention }

/-- `ConventionConverter.convert_channel_convention` (the list/array version
used by `CmdChannelGenerator`). -/
def convert_channel_convention (channels : List String) (data : Mat)
    (current_convention target_convention : String) : Mat :=
  if current_convention = target_convention then data
  else if ¬ validate_convention target_convention then data
  else if ¬ validate_convention current_convention then data
  else mapi (convention_col channels current_convention target_convention)
        0 data

/-! ## converters/units.py — `UnitSystemConverter` -/

/-- A unit definition's offset: scalar, or the `(from_offset, to_offset)`
pair used by USCS temperature. -/
inductive UOffset where
  | scalar : ℚ → UOffset
  | pair : ℚ → ℚ → UOffset
deriving Repr, DecidableEq

/-- Exact rational value of the IEEE-754 double `math.pi`
(`7074237752028440 * 2^-51`). -/
def pi_f64 : ℚ := 884279719003555 / 281474976710656

/-- `UnitSystemConverter.UNIT_DEFS`:
`unit_type -> system -> (unit_string, to_SI_factor, offset)`. -/
def UNIT_DEFS : List (String × List (String × (String × ℚ × UOffset))) :=
  [("length",
    [("SI", ("m", 1, .scalar 0)), ("Metric", ("cm", 1/100, .scalar 0)),
     ("USCS", ("in", 254/10000, .scalar 0))]),
   ("force",
    [("SI", ("N", 1, .scalar 0)), ("Metric", ("N", 1, .scalar 0)),
     ("USCS", ("lb", 444822/100000, .scalar 0))]),
   ("torque",
    [("SI", ("Nm", 1, .scalar 0)), ("Metric", ("Nm", 1, .scalar 0)),
     ("USCS", ("ft-lb", 135582/100000, .scalar 0))]),
   ("pressure",
    [("SI", ("Pa", 1, .scalar 0)), ("Metric", ("kPa", 1000, .scalar 0)),
     ("USCS", ("psi", 689476/100, .scalar 0))]),
   ("angle",
    [("SI", ("rad", 1, .scalar 0)),
     ("Metric", ("deg", pi_f64 / 180, .scalar 0)),
     ("USCS", ("deg", pi_f64 / 180, .scalar 0))]),
   ("speed",
    [("SI", ("m/s", 1, .scalar 0)),
     ("Metric", ("kph", 1000/3600, .scalar 0)),
     ("USCS", ("mph", 44704/100000, .scalar 0))]),
   ("rotational_speed",
    [("SI", ("rad/s", 1, .scalar 0)),
     ("Metric", ("rpm", 2 * pi_f64 / 60, .scalar 0)),
     ("USCS", ("rpm", 2 * pi_f64 / 60, .scalar 0))]),
   ("temperature",
    [("SI", ("deg k", 1, .scalar 0)),
     ("Metric", ("deg c", 1, .scalar (27315/100))),
     ("USCS", ("deg F", 5/9, .pair (25537/100) (45967/100)))]),
   ("time",
    [("SI", ("sec", 1, .scalar 0)), ("Metric", ("sec", 1, .scalar 0)),
     ("USCS", ("sec", 1, .scalar 0))])]

/-- `UnitSystemConverter.CHANNEL_TO_TYPE`. -/
def CHANNEL_TO_TYPE : List (String × String) :=
  [("RL", "length"), ("RE", "length"),
   ("FX", "force"), ("FY", "force"), ("FZ", "force"), ("CmdFZ", "force"),
   ("MX", "torque"), ("MY", "torque"), ("MZ", "torque"),
   ("P", "pressure"), ("CmdP", "pressure"),
   ("SA", "angle"), ("IA", "angle"), ("CmdSA", "angle"), ("CmdIA", "angle"),
   ("V", "speed"), ("CmdV", "speed"),
   ("N", "rotational_speed"),
   ("RST", "temperature"), ("TSTI", "temperature"), ("TSTC", "temperature"),
   ("TSTO", "temperature"), ("AmbTmp", "temperature"),
   ("ET", "time")]

/-- The three unit systems of `_initialize_cache`. -/
def UNIT_SYSTEMS : List String := ["SI", "Metric", "USCS"]

/-- `UnitSystemConverter.map_channels_to_types`: `dict.get(ch, "-")` per
channel. -/
def map_channels_to_types (channels : List String) : List String :=
  channels.map (fun ch => (lookupTable CHANNEL_TO_TYPE ch).getD "-")

/-- Conversion parameters for one `(from_system, to_system, unit_type)` cell
of `_CONVERSION_CACHE` (`from_system ≠ to_system` branch of
`_initialize_cache`): `(to_si, from_si, to_offset, from_offset)`. -/
structure ConvParams where
  to_si : ℚ
  from_si : ℚ
  to_offset : ℚ
  from_offset : ℚ
deriving Repr, DecidableEq

/-- Neutral parameters (the untouched entries of the numpy factor arrays in
`convert_dataset`: factor 1, offset 0). -/
def neutral_params : ConvParams := ⟨1, 1, 0, 0⟩

/-- The scalar carried by an offset; in the table a `.pair` offset never
meets another `.pair` (only USCS temperature is a pair), so the `.pair`
fallback is unreachable in the cache computation. -/
def uoffset_scalar : UOffset → ℚ
  | .scalar x => x
  | .pair a _ => a

/-- The offset-resolution logic of `_initialize_cache`. -/
def conversion_params (from_def to_def : String × ℚ × UOffset) : ConvParams :=
  let to_si := from_def.2.1
  let from_si := to_def.2.1
  match from_def.2.2, to_def.2.2 with
  | .pair a _, toff => ⟨to_si, from_si, uoffset_scalar toff, a⟩
  | .scalar fo, .pair _ b => ⟨to_si, from_si, b, fo⟩
  | .scalar fo, .scalar t => ⟨to_si, from_si, t, fo⟩

/-- `_CONVERSION_CACHE[from_system][to_system][unit_type]` for distinct
systems; `none` exactly when `unit_type` is not a key of `UNIT_DEFS` (the
cache holds every `UNIT_DEFS` unit type, and every unit type defines all
three systems). -/
def cache_params (from_system to_system unit_type : String) :
    Option ConvParams :=
  match lookupTable UNIT_DEFS unit_type with
  | none => none
  | some defs =>
      match lookupTable defs from_system, lookupTable defs to_system with
      | some fd, some td => some (conversion_params fd td)
      | _, _ => none

/-- One iteration of the per-channel loop of
`UnitSystemConverter.convert_dataset`: the conversion parameters and the
updated unit string for column `i`. -/
def col_params (units unit_types : List String)
    (from_system to_system : String) (i : ℕ) : ConvParams × String :=
  let ut := unit_types.getD i "-"
  if ut = "-" then (neutral_params, "-")
  else
    match cache_params from_system to_system ut with
    | none => (neutral_params, units.getD i "")
    | some p =>
        (p, ((lookupTable ((lookupTable UNIT_DEFS ut).getD []) to_system).getD
              ("", 1, .scalar 0)).1)

/-- The `np.any(from_offset_arr != 0) or np.any(to_offset_arr != 0)` test. -/
def any_offset (units unit_types : List String)
    (from_system to_system : String) : Prop :=
  ∃ i ∈ List.range unit_types.length,
    (col_params units unit_types from_system to_system i).1.from_offset ≠ 0 ∨
    (col_params units unit_types from_system to_system i).1.to_offset ≠ 0

instance (units unit_types : List String) (a b : String) :
    Decidable (any_offset units unit_types a b) := by
  unfold any_offset; infer_instance

/-- The factor/offset application of `convert_dataset`, before command
rounding: the broadcasted
`(data * to_si + from_offset) / from_si - to_offset` (offset branch) or
`data * (to_si / from_si)` (pure-factor branch). -/
def unit_converted_data (d : Dataset) (to_system : String) : Mat :=
  mapi (fun i col =>
    let p := (col_params d.units d.unit_types d.unit_system to_system i).1
    if any_offset d.units d.unit_types d.unit_system to_system then
      col.map (fun x => (x * p.to_si + p.from_offset) / p.from_si - p.to_offset)
    else col.map (fun x => x * (p.to_si / p.from_si))) 0 d.data

/-- numpy's `np.round`: round half to even. -/
def np_round (x : ℚ) : Int :=
  let f := ⌊x⌋
  if x - f < 1/2 then f
  else if x - f > 1/2 then f + 1
  else if f % 2 = 0 then f else f + 1

/-- The command-channel index list of `convert_dataset`:
`[channels.index(s) for s in channels if "Cmd" in s]` (Python `list.index`
is the first occurrence). -/
def cmd_indexes (channels : List String) : List ℕ :=
  (channels.filter (fun s => contains_substr "Cmd" s)).map
    (fun s => channels.indexOf s)

/-- `UnitSystemConverter.convert_dataset`. -/
def convert_dataset (d : Dataset) (to_system : String) : Dataset :=
  if d.unit_system = to_system then d
  else if ¬ (d.unit_system ∈ UNIT_SYSTEMS ∧ to_system ∈ UNIT_SYSTEMS) then d
  else
    { d with
      data := mapi (fun i col =>
          if i ∈ cmd_indexes d.channels then
            col.map (fun x => ((np_round x : Int) : ℚ))
          else col) 0 (unit_converted_data d to_system),
      units := (List.range d.unit_types.length).map (fun i =>
          (col_params d.units d.unit_types d.unit_system to_system i).2),
      unit_system := to_system }

/-- Concrete dataset exhibiting the C5 unit-string replacement: channel `Foo`
is absent from the channel-to-type table (`unit_type` tag `-`) and carries
the unit string `xyz`. -/
def c5_dataset : Dataset :=
  { path := "p", name := "n", channels := ["Foo"], units := ["xyz"],
    unit_types := ["-"], data := [[1/2]], tire_id := "t", rim_width := 0,
    unit_system := "USCS", sign_convention := "SAE", node_color := "blue" }

/-! ## core/dataio.py — metadata unit-system fallbacks (C6) -/

/-- The `unit_system` fallback of `DataImporter._extract_dat_metadata`:
Python evaluates `"lb" in units` where `units` is the LIST of unit strings,
i.e. exact element membership, not a substring test. -/
def dat_default_unit_system (units : List String) : String :=
  if "lb" ∈ units then "USCS" else "Metric"

/-- The `unit_system` fallback of `DataImporter._extract_mat_metadata`:
Python evaluates `"lb" in str(units)`, a substring test on the printed list;
for unit strings free of quote characters this holds exactly when some unit
string contains `lb`. -/
def mat_default_unit_system (units : List String) : String :=
  if units.any (fun u => contains_substr "lb" u) then "USCS" else "Metric"

/-! ## converters/command.py — `CmdChannelGenerator` -/

/-- `CmdChannelGenerator.CMD_TARGETS`. -/
def CMD_TARGETS : List (String × List (String × List ℚ)) :=
  [("V", [("USCS", [0, 2, 15, 25, 45]), ("Metric", [0, 3, 24, 40, 72])]),
   ("P", [("USCS", [0, 8, 10, 12, 14]), ("Metric", [0, 55, 69, 83, 97])]),
   ("FZ", [("USCS", [0, -50, -100, -150, -200, -250, -350]),
           ("Metric", [0, -222, -445, -667, -890, -1112, -1557])]),
   ("IA", [("USCS", [0, 2, 4]), ("Metric", [0, 2, 4])]),
   ("SA", [("USCS", [0, -1, -3, -6, 1, 6]),
           ("Metric", [0, -1, -3, -6, 1, 6])])]

/-- The channel keys of `CmdChannelGenerator.FILTER_CONFIG` (only `FZ`).
The associated cutoff/fs/order parameters feed the scipy `low_pass_filter`,
which this embedding abstracts as a function parameter `filt`. -/
def FILTER_CHANNELS : List String := ["FZ"]

/-- `np.argmin` of `|v - t|` over the remaining targets: `i` is the absolute
index of the head of the remaining list, `best`/`bestd` the current best
index and distance.  Only strict improvement replaces the best, so the first
minimum index wins — numpy `argmin` semantics. -/
def argminAux (v : ℚ) : List ℚ → ℕ → ℕ → ℚ → ℕ
  | [], _, best, _ => best
  | t :: rest, i, best, bestd =>
      if |v - t| < bestd then argminAux v rest (i + 1) i |v - t|
      else argminAux v rest (i + 1) best bestd

/-- One sample of `_discretize_channel`:
`target_arr[np.abs(values - target_arr).argmin()]` (empty targets do not
occur; numpy would raise there, modelled as 0). -/
def discretize_value (targets : List ℚ) (v : ℚ) : ℚ :=
  match targets with
  | [] => 0
  | t :: rest => (targets.get? (argminAux v rest 1 0 |v - t|)).getD 0

/-- `CmdChannelGenerator._discretize_channel`. -/
def discretize_channel (filt : Col → Col) (values : Col) (targets : List ℚ)
    (channel_name : String) : Col :=
  let values :=
    if channel_name ∈ FILTER_CHANNELS then filt values else values
  values.map (fun v => discretize_value targets v)

/-- `CmdChannelGenerator._get_existing_cmd_channels`. -/
def get_existing_cmd_channels (channels : List String) : List String :=
  (CMD_TARGETS.map Prod.fst).filterMap (fun chan =>
    if ("Cmd" ++ chan) ∈ channels then some ("Cmd" ++ chan) else none)

/-- `CmdChannelGenerator._validate_inputs`. -/
abbrev validate_inputs (channels units : List String) (data : Mat)
    (unit_system : String) : Prop :=
  channels.length = units.length ∧ channels.length = data.length ∧
    unit_system ∈ ["USCS", "Metric"]

/-- The loop of `_generate_cmd_channels` over the (remaining) entries of
`CMD_TARGETS`, in iteration order. -/
def gen_loop (filt : Col → Col) (channels units : List String) (data : Mat)
    (unit_system : String) (existing : List String) :
    List (String × List (String × List ℚ)) →
      List String × List String × List Col
  | [] => ([], [], [])
  | (chan_name, targets) :: rest =>
      if ("Cmd" ++ chan_name) ∈ existing then
        gen_loop filt channels units data unit_system existing rest
      else if chan_name ∉ channels then
        gen_loop filt channels units data unit_system existing rest
      else
        match lookupTable targets unit_system with
        | none => gen_loop filt channels units data unit_system existing rest
        | some tgt =>
            let tail :=
              gen_loop filt channels units data unit_system existing rest
            let col_idx := channels.indexOf chan_name
            (("Cmd" ++ chan_name) :: tail.1,
             units.getD col_idx "" :: tail.2.1,
             discretize_channel filt (data.getD col_idx []) tgt chan_name ::
               tail.2.2)

/-- `CmdChannelGenerator._generate_cmd_channels`. -/
def generate_cmd_channels (filt : Col → Col) (channels units : List String)
    (data : Mat) (unit_system : String) (existing : List String) :
    List String × List String × List Col :=
  gen_loop filt channels units data unit_system existing CMD_TARGETS

/-- `CmdChannelGenerator.create_cmd_channels`. -/
def create_cmd_channels (filt : Col → Col) (channels units : List String)
    (data : Mat) (unit_system sign_convention : String) :
    List String × List String × Mat :=
  let existing := get_existing_cmd_channels channels
  if existing.length = CMD_TARGETS.length then (channels, units, data)
  else if ¬ validate_inputs channels units data unit_system then
    (channels, units, data)
  else
    let data_sae :=
      convert_channel_convention channels data sign_convention "SAE"
    let gen := generate_cmd_channels filt channels units data_sae unit_system
      existing
    let channels2 := if gen.1 ≠ [] then channels ++ gen.1 else channels
    let units2 := if gen.1 ≠ [] then units ++ gen.2.1 else units
    let data2 := if gen.1 ≠ [] then data_sae ++ gen.2.2 else data_sae
    (channels2, units2,
      convert_channel_convention channels2 data2 "SAE" sign_convention)

/-! ## core/dataio.py — `DataManager` -/

/-- The `_datasets` dict of `DataManager`: an insertion-ordered association
list; the Python `dict` unique-key invariant appears as `Nodup` hypotheses. -/
abbrev DataManager := List (String × Dataset)

/-- `DataManager.list_datasets` (`list(self._datasets.keys())`). -/
def list_datasets (m : DataManager) : List String := m.map Prod.fst

/-- Python `dict` assignment `d[k] = v`: update the value in place (keeping
the key's position) when the key exists, else append at the end. -/
def dict_insert : List (String × Dataset) → String → Dataset →
    List (String × Dataset)
  | [], k, v => [(k, v)]
  | (k', v') :: rest, k, v =>
      if k' = k then (k', v) :: rest else (k', v') :: dict_insert rest k v

/-- `DataManager.update_dataset` (rename).  The value stored under
`new_name` in the rebuild loop is `self._datasets[old_name]`, which equals
the iterated value `kv.2` at the matching key because dict keys are
unique. -/
def update_dataset (m : DataManager) (old_name new_name : String) :
    DataManager × Bool :=
  if old_name ∉ list_datasets m then (m, false)
  else if old_name ≠ new_name then
    (m.foldl (fun acc kv =>
      if kv.1 = old_name then dict_insert acc new_name kv.2
      else dict_insert acc kv.1 kv.2) [], true)
  else (m, true)

/-- The rename applied to one entry: the `old` key becomes `new`, other
entries are kept. -/
def rename_entry (old_name new_name : String) (kv : String × Dataset) :
    String × Dataset :=
  if kv.1 = old_name then (new_name, kv.2) else kv

/-- A concrete empty dataset named `a` (for the DataManager examples). -/
def d_a : Dataset :=
  { path := "a", name := "a", channels := [], units := [], unit_types := [],
    data := [], tire_id := "", rim_width := 0, unit_system := "USCS",
    sign_convention := "SAE", node_color := "red" }

/-- A concrete empty dataset named `b`, distinct from `d_a`. -/
def d_b : Dataset :=
  { path := "b", name := "b", channels := [], units := [], unit_types := [],
    data := [], tire_id := "", rim_width := 0, unit_system := "USCS",
    sign_convention := "SAE", node_color := "green" }

theorem mapi_length (f : ℕ → α → β) (i : ℕ) (l : List α) :
    (mapi f i l).length = l.length := by
  induction l generalizing i with
  | nil => rfl
  | cons a l ih => simp [mapi, ih]

theorem mapi_get? (f : ℕ → α → β) (i j : ℕ) (l : List α) :
    (mapi f i l).get? j = (l.get? j).map (f (i + j)) := by
  induction l generalizing i j with
  | nil => simp [mapi]
  | cons a l ih =>
      cases j with
      | zero => simp [mapi]
      | succ j =>
          simp only [mapi, List.get?_cons_succ, ih (i + 1) j]
          have h : i + 1 + j = i + (j + 1) := by omega
          rw [h]

theorem mapi_mapi (f g : ℕ → α → α) (i : ℕ) (l : List α) :
    mapi g i (mapi f i l) = mapi (fun j x => g j (f j x)) i l := by
  induction l generalizing i with
  | nil => rfl
  | cons a l ih => simp [mapi, ih]

theorem mapi_id (f : ℕ → α → α) (i : ℕ) (l : List α)
    (h : ∀ j x, f j x = x) : mapi f i l = l := by
  induction l generalizing i with
  | nil => rfl
  | cons a l ih => simp [mapi, h, ih]

theorem lookupTable_mem {t : List (String × α)} {k : String} {v : α}
    (h : lookupTable t k = some v) : (k, v) ∈ t := by
  unfold lookupTable at h
  cases hf : t.find? (fun p => p.1 = k) with
  | none => rw [hf] at h; exact Option.noConfusion h
  | some p =>
      rw [hf] at h
      have hp := List.find?_some hf
      have hmem := List.mem_of_find?_eq_some hf
      have h1 : p.1 = k := by simpa using hp
      have h2 : p.2 = v := by simpa using h
      cases p
      cases h1; cases h2; exact hmem

/-- Claim C1, amended: at construction `Dataset.__post_init__` validates
`len(channels) == len(units)` and `len(channels) == data.shape[1]`, raising a
`ValueError` (hard failure) on any mismatch between channels, units and data;
the `unit_types` list, however, is not validated and is stored as given. -/
theorem claim_C1_construction_validation
    (path name : String) (channels units unit_types : List String)
    (data : Mat) (tire_id : String) (rim_width : Int)
    (unit_system sign_convention node_color notes : String) :
    (channels.length = units.length ∧ channels.length = data.length →
      ∃ d, mkDataset path name channels units unit_types data tire_id rim_width
            unit_system sign_convention node_color notes = .ok d ∧
          d.channels.length = d.units.length ∧
          d.channels.length = d.data.length ∧
          d.unit_types = unit_types) ∧
    (channels.length ≠ units.length ∨ channels.length ≠ data.length →
      ∃ msg, mkDataset path name channels units unit_types data tire_id rim_width
            unit_system sign_convention node_color notes = .error msg) := by
  constructor
  · rintro ⟨h1, h2⟩
    refine ⟨{ path := path, name := name, channels := channels, units := units,
              unit_types := unit_types, data := data, tire_id := tire_id,
              rim_width := rim_width, unit_system := unit_system,
              sign_convention := sign_convention, node_color := node_color,
              notes := notes }, ?_, h1, h2, rfl⟩
    unfold mkDataset
    rw [if_neg (by omega), if_neg (by omega)]
  · intro h
    unfold mkDataset
    by_cases h1 : channels.length ≠ units.length
    · rw [if_pos h1]; exact ⟨_, rfl⟩
    · have h2 : channels.length ≠ data.length := by tauto
      rw [if_neg h1, if_pos h2]; exact ⟨_, rfl⟩

/-- Claim C1, counterexample to the claim as stated: a `Dataset` whose
`unit_types` list is empty while it has one channel constructs successfully
(the mapped boolean records `len(unit_types) == len(channels)` in the
constructed dataset), so a `unit_types` misalignment does not raise. -/
theorem claim_C1_counterexample :
    ((mkDataset "p" "n" ["SA"] ["deg"] [] [[1]] "t" 0 "USCS" "SAE" "blue"
        "").toOption.map
      (fun d => d.unit_types.length == d.channels.length)) = some false := by
  decide

/-- Witness for `claim_C1_construction_validation` at a concrete aligned
input. -/
theorem claim_C1_witness :
    ∃ d, mkDataset "p" "n" ["SA"] ["deg"] ["angle"] [[1]] "t" 0 "USCS" "SAE"
          "blue" "" = .ok d ∧
        d.channels.length = d.units.length ∧
        d.channels.length = d.data.length ∧
        d.unit_types = ["angle"] :=
  (claim_C1_construction_validation "p" "n" ["SA"] ["deg"] ["angle"] [[1]]
    "t" 0 "USCS" "SAE" "blue" "").1 (by decide)

/-- Every row of the sign table, evaluated at any ordered pair of supported
conventions, yields multipliers that cancel: the table entries are all ±1 and
`b.fdiv a * a.fdiv b = 1` there.  Checked by evaluation over the finite
table. -/
theorem multiplier_row_round_trip :
    ∀ row ∈ SIGN_DEFINITIONS.map Prod.snd,
      ∀ a ∈ SUPPORTED_CONVENTIONS, ∀ b ∈ SUPPORTED_CONVENTIONS,
        multiplier_of_row row a b * multiplier_of_row row b a = 1 := by
  decide

/-- Cancellation of the two multipliers of a round trip, for any channel. -/
theorem get_multiplier_round_trip (channel a b : String)
    (ha : a ∈ SUPPORTED_CONVENTIONS) (hb : b ∈ SUPPORTED_CONVENTIONS) :
    get_multiplier channel a b * get_multiplier channel b a = 1 := by
  by_cases hab : a = b
  · simp [get_multiplier, hab]
  · unfold get_multiplier
    rw [if_neg hab, if_neg (Ne.symm hab)]
    cases hrow : lookupTable SIGN_DEFINITIONS channel with
    | none => simp
    | some row =>
        have hmem : (channel, row) ∈ SIGN_DEFINITIONS := lookupTable_mem hrow
        have : row ∈ SIGN_DEFINITIONS.map Prod.snd :=
          List.mem_map_of_mem Prod.snd hmem
        exact multiplier_row_round_trip row this a ha b hb

/-- Mapping a column through two multiplications whose factors cancel gives
back the column. -/
theorem col_map_mul_cancel (col : Col) (m1 m2 : Int) (h : m1 * m2 = 1) :
    (col.map (fun x => x * (m1 : ℚ))).map (fun x => x * (m2 : ℚ)) = col := by
  rw [List.map_map]
  have : ∀ x : ℚ, x * (m1 : ℚ) * (m2 : ℚ) = x := by
    intro x
    have : ((m1 * m2 : Int) : ℚ) = 1 := by rw [h]; norm_num
    push_cast at this
    calc x * (m1 : ℚ) * (m2 : ℚ) = x * ((m1 : ℚ) * (m2 : ℚ)) := by ring
      _ = x * 1 := by rw [this]
      _ = x := by ring
  calc (col.map ((fun x => x * (m2 : ℚ)) ∘ fun x => x * (m1 : ℚ)))
      = col.map id := List.map_congr_left (fun x _ => this x)
    _ = col := List.map_id col

/-- One column converted from `a` to `b` and back to `a` is unchanged,
for supported `a`, `b`. -/
theorem convention_col_round_trip (channels : List String) (a b : String)
    (ha : a ∈ SUPPORTED_CONVENTIONS) (hb : b ∈ SUPPORTED_CONVENTIONS)
    (idx : ℕ) (col : Col) :
    convention_col channels b a idx (convention_col channels a b idx col) =
      col := by
  unfold convention_col
  cases hch : channels.get? idx with
  | none => simp
  | some channel =>
      simp only []
      cases hrow : (lookupTable SIGN_DEFINITIONS channel).isSome with
      | false => simp [hrow]
      | true =>
          simp only [hrow, if_pos]
          have hcancel := get_multiplier_round_trip channel a b ha hb
          by_cases h1 : get_multiplier channel a b = 1
          · have h2 : get_multiplier channel b a = 1 := by
              rw [h1, one_mul] at hcancel; exact hcancel
            simp [h1, h2]
          · by_cases h2 : get_multiplier channel b a = 1
            · rw [h2, mul_one] at hcancel; exact absurd hcancel h1
            · simp only [if_pos, h1, h2, ne_eq, not_false_eq_true, if_true]
              exact col_map_mul_cancel col _ _ hcancel

/-- Unfolding of `convert_dataset_convention` on its main branch. -/
theorem convert_dataset_convention_eq (d : Dataset) (t : String)
    (h1 : d.sign_convention ≠ t) (h2 : validate_convention t) :
    convert_dataset_convention d t =
      { d with
        data := mapi (convention_col d.channels d.sign_convention t) 0 d.data,
        sign_convention := t } := by
  rw [convert_dataset_convention, if_neg h1, if_neg (not_not_intro h2)]

/-- Claim C2: converting a dataset from its own supported convention `A` to
any supported convention `B` and back reproduces the original data matrix
exactly (every per-channel multiplier is ±1, and the two trips cancel). -/
theorem claim_C2_convention_round_trip (d : Dataset) (B : String)
    (hA : d.sign_convention ∈ SUPPORTED_CONVENTIONS)
    (hB : B ∈ SUPPORTED_CONVENTIONS)
    (_hlen : d.channels.length = d.data.length) :
    (convert_dataset_convention (convert_dataset_convention d B)
        d.sign_convention).data = d.data := by
  by_cases hAB : d.sign_convention = B
  · have h1 : convert_dataset_convention d B = d := by
      rw [convert_dataset_convention, if_pos hAB]
    rw [h1]
    have h2 : convert_dataset_convention d d.sign_convention = d := by
      rw [convert_dataset_convention, if_pos rfl]
    rw [h2]
  · rw [convert_dataset_convention_eq d B hAB (by simpa using hB)]
    rw [convert_dataset_convention_eq _ _ (by exact Ne.symm hAB)
          (by simpa using hA)]
    show mapi (convention_col d.channels B d.sign_convention) 0
        (mapi (convention_col d.channels d.sign_convention B) 0 d.data) =
      d.data
    rw [mapi_mapi]
    exact mapi_id _ 0 d.data
      (fun j col => convention_col_round_trip d.channels d.sign_convention B
        hA hB j col)

/-- Witness for `claim_C2_convention_round_trip`: a concrete one-channel SAE
dataset converted to ISO and back. -/
theorem claim_C2_witness :
    (convert_dataset_convention
        (convert_dataset_convention
          { path := "p", name := "n", channels := ["FY"], units := ["lb"],
            unit_types := ["force"], data := [[3, -7]], tire_id := "t",
            rim_width := 0, unit_system := "USCS", sign_convention := "SAE",
            node_color := "blue" } "ISO") "SAE").data = [[3, -7]] :=
  claim_C2_convention_round_trip
    { path := "p", name := "n", channels := ["FY"], units := ["lb"],
      unit_types := ["force"], data := [[3, -7]], tire_id := "t",
      rim_width := 0, unit_system := "USCS", sign_convention := "SAE",
      node_color := "blue" } "ISO" (by decide) (by decide) (by decide)

theorem get?_indexOf {s : String} {l : List String} (h : s ∈ l) :
    l.get? (l.indexOf s) = some s := by
  induction l with
  | nil => cases h
  | cons a l ih =>
      unfold List.indexOf
      rw [List.findIdx_cons]
      by_cases ha : a == s
      · simp only [ha, cond_true]
        simpa using (eq_of_beq ha)
      · have hmem : s ∈ l := by
          cases h with
          | head => exact absurd (by simp) ha
          | tail _ h2 => exact h2
        simp only [ha, cond_false]
        simpa using ih hmem

theorem indexOf_eq_of_nodup {s : String} {l : List String} {i : ℕ}
    (hnd : l.Nodup) (hg : l.get? i = some s) : l.indexOf s = i := by
  induction l generalizing i with
  | nil => simp at hg
  | cons a l ih =>
      rw [List.nodup_cons] at hnd
      cases i with
      | zero =>
          simp only [List.get?_cons_zero, Option.some.injEq] at hg
          unfold List.indexOf
          rw [List.findIdx_cons]
          simp [hg]
      | succ i =>
          simp only [List.get?_cons_succ] at hg
          have hmem : s ∈ l := List.get?_mem hg
          have hne : (a == s) = false := by
            by_contra hne
            rw [Bool.not_eq_false, beq_iff_eq] at hne
            exact hnd.1 (hne ▸ hmem)
          unfold List.indexOf
          rw [List.findIdx_cons]
          simp only [hne, cond_false]
          unfold List.indexOf at ih
          rw [ih hnd.2 hg]

/-- Every member of `cmd_indexes` is the first index of some channel name
containing `Cmd`; in particular the channel at that index contains `Cmd`. -/
theorem cmd_indexes_mem {channels : List String} {j : ℕ}
    (h : j ∈ cmd_indexes channels) :
    ∃ s, channels.get? j = some s ∧ contains_substr "Cmd" s = true := by
  unfold cmd_indexes at h
  rcases List.mem_map.mp h with ⟨s, hs, rfl⟩
  rcases List.mem_filter.mp hs with ⟨hmem, hpred⟩
  exact ⟨s, get?_indexOf hmem, hpred⟩

/-- For duplicate-free channel lists, a channel containing `Cmd` puts its own
index into `cmd_indexes`. -/
theorem mem_cmd_indexes {channels : List String} {i : ℕ} {s : String}
    (hnd : channels.Nodup) (hg : channels.get? i = some s)
    (hcmd : contains_substr "Cmd" s = true) : i ∈ cmd_indexes channels := by
  unfold cmd_indexes
  have hmem : s ∈ channels := List.get?_mem hg
  have hfil : s ∈ channels.filter (fun t => contains_substr "Cmd" t) :=
    List.mem_filter.mpr ⟨hmem, hcmd⟩
  have h2 : channels.indexOf s ∈
      (channels.filter (fun t => contains_substr "Cmd" t)).map
        (fun t => channels.indexOf t) :=
    List.mem_map_of_mem (fun t => channels.indexOf t) hfil
  rwa [indexOf_eq_of_nodup hnd hg] at h2

/-- Unfolding of `convert_dataset` on its main branch. -/
theorem convert_dataset_eq (d : Dataset) (to_system : String)
    (h1 : d.unit_system ∈ UNIT_SYSTEMS) (h2 : to_system ∈ UNIT_SYSTEMS)
    (hne : d.unit_system ≠ to_system) :
    convert_dataset d to_system =
      { d with
        data := mapi (fun i col =>
            if i ∈ cmd_indexes d.channels then
              col.map (fun x => ((np_round x : Int) : ℚ))
            else col) 0 (unit_converted_data d to_system),
        units := (List.range d.unit_types.length).map (fun i =>
            (col_params d.units d.unit_types d.unit_system to_system i).2),
        unit_system := to_system } := by
  rw [convert_dataset, if_neg hne, if_neg (not_not_intro ⟨h1, h2⟩)]

/-- `np.round` sends every rational to an integer at distance at most 1/2. -/
theorem np_round_nearest (x : ℚ) : |((np_round x : Int) : ℚ) - x| ≤ 1/2 := by
  have hfl : (⌊x⌋ : ℚ) ≤ x := Int.floor_le x
  have hfu : x < (⌊x⌋ : ℚ) + 1 := Int.lt_floor_add_one x
  unfold np_round
  by_cases hc1 : x - (⌊x⌋ : ℚ) < 1/2
  · rw [if_pos hc1, abs_le]; constructor <;> push_cast <;> linarith
  · rw [if_neg hc1]
    by_cases hc2 : x - (⌊x⌋ : ℚ) > 1/2
    · rw [if_pos hc2, abs_le]; constructor <;> push_cast <;> linarith
    · rw [if_neg hc2]
      by_cases hc3 : ⌊x⌋ % 2 = 0
      · rw [if_pos hc3, abs_le]; constructor <;> push_cast <;> linarith
      · rw [if_neg hc3, abs_le]; constructor <;> push_cast <;> linarith

/-- Claim C7: after a real unit-system conversion (valid distinct systems),
every channel whose name contains `Cmd` has its column equal to the
elementwise `np.round` of the factor/offset-converted column, and `np.round`
yields a nearest integer (distance at most 1/2). -/
theorem claim_C7_cmd_rounding (d : Dataset) (to_system : String)
    (h1 : d.unit_system ∈ UNIT_SYSTEMS) (h2 : to_system ∈ UNIT_SYSTEMS)
    (hne : d.unit_system ≠ to_system) (hnd : d.channels.Nodup)
    (i : ℕ) (s : String) (hch : d.channels.get? i = some s)
    (hcmd : contains_substr "Cmd" s = true) :
    (convert_dataset d to_system).data.get? i =
      ((unit_converted_data d to_system).get? i).map
        (List.map (fun x => ((np_round x : Int) : ℚ))) ∧
    ∀ x : ℚ, |((np_round x : Int) : ℚ) - x| ≤ 1/2 := by
  refine ⟨?_, np_round_nearest⟩
  rw [convert_dataset_eq d to_system h1 h2 hne]
  show (mapi _ 0 (unit_converted_data d to_system)).get? i = _
  rw [mapi_get?]
  have hin : i ∈ cmd_indexes d.channels := mem_cmd_indexes hnd hch hcmd
  simp only [Nat.zero_add, hin, if_pos]

/-- Claim C5, amended: a channel absent from the channel-to-type table (unit
type `-`) keeps its numeric values through a unit-system conversion provided
its name does not contain `Cmd`, but its unit string is set to the `-`
sentinel rather than preserved. -/
theorem claim_C5_untyped_passthrough (d : Dataset) (to_system : String)
    (h1 : d.unit_system ∈ UNIT_SYSTEMS) (h2 : to_system ∈ UNIT_SYSTEMS)
    (hne : d.unit_system ≠ to_system)
    (i : ℕ) (hut : d.unit_types.get? i = some "-")
    (hch : ∀ s, d.channels.get? i = some s →
      contains_substr "Cmd" s = false) :
    (convert_dataset d to_system).data.get? i = d.data.get? i ∧
    (convert_dataset d to_system).units.get? i = some "-" := by
  rw [convert_dataset_eq d to_system h1 h2 hne]
  have hnotin : i ∉ cmd_indexes d.channels := by
    intro hin
    rcases cmd_indexes_mem hin with ⟨s, hg, hcmd⟩
    rw [hch s hg] at hcmd
    exact Bool.noConfusion hcmd
  have hparams :
      col_params d.units d.unit_types d.unit_system to_system i =
        (neutral_params, "-") := by
    unfold col_params
    have : d.unit_types.getD i "-" = "-" := by
      unfold List.getD
      rw [hut]; rfl
    rw [this, if_pos rfl]
  constructor
  · show (mapi _ 0 (unit_converted_data d to_system)).get? i = _
    rw [mapi_get?]
    unfold unit_converted_data
    rw [mapi_get?, Option.map_map]
    cases hcol : d.data.get? i with
    | none => rfl
    | some col =>
        simp only [Option.map_some', Function.comp, Nat.zero_add, hparams,
          Option.some.injEq]
        rw [if_neg hnotin]
        simp [neutral_params]
  · show ((List.range d.unit_types.length).map _).get? i = _
    have hlt : i < d.unit_types.length := by
      by_contra hge
      rw [List.get?_eq_none.mpr (by omega)] at hut
      exact Option.noConfusion hut
    rw [List.get?_map, List.get?_range hlt]
    simp only [Option.map_some', hparams]

/-- Claim C5, counterexample to the claim as stated: converting `c5_dataset`
from USCS to Metric replaces the untyped channel's unit string `xyz` with the
sentinel `-`, so the unit string does not pass through unchanged. -/
theorem claim_C5_counterexample :
    (convert_dataset c5_dataset "Metric").units = ["-"] ∧
    c5_dataset.units = ["xyz"] := by
  constructor <;> decide

/-- Witness for `claim_C5_untyped_passthrough` on `c5_dataset`. -/
theorem claim_C5_witness :
    (convert_dataset c5_dataset "Metric").data.get? 0 =
      c5_dataset.data.get? 0 ∧
    (convert_dataset c5_dataset "Metric").units.get? 0 = some "-" :=
  claim_C5_untyped_passthrough c5_dataset "Metric" (by decide) (by decide)
    (by decide) 0 (by decide) (by decide)

/-- Witness for `claim_C7_cmd_rounding`: a `CmdSA` angle column converted
from USCS to Metric. -/
theorem claim_C7_witness :
    (convert_dataset
        { path := "p", name := "n", channels := ["CmdSA"], units := ["deg"],
          unit_types := ["angle"], data := [[1/2]], tire_id := "t",
          rim_width := 0, unit_system := "USCS", sign_convention := "SAE",
          node_color := "blue" } "Metric").data.get? 0 =
      ((unit_converted_data
        { path := "p", name := "n", channels := ["CmdSA"], units := ["deg"],
          unit_types := ["angle"], data := [[1/2]], tire_id := "t",
          rim_width := 0, unit_system := "USCS", sign_convention := "SAE",
          node_color := "blue" } "Metric").get? 0).map
        (List.map (fun x => ((np_round x : Int) : ℚ))) ∧
    ∀ x : ℚ, |((np_round x : Int) : ℚ) - x| ≤ 1/2 :=
  claim_C7_cmd_rounding _ "Metric" (by decide) (by decide) (by decide)
    (by decide) 0 "CmdSA" (by decide) (by decide)

/-- Claim C6, amended: when no unit system is declared, the MAT importer
defaults to USCS exactly when some unit string contains the substring `lb`,
while the DAT importer defaults to USCS exactly when some unit string equals
`lb`; both default to Metric otherwise. -/
theorem claim_C6_unit_system_fallback (units : List String) :
    (dat_default_unit_system units = "USCS" ↔ "lb" ∈ units) ∧
    (dat_default_unit_system units = "Metric" ↔ "lb" ∉ units) ∧
    (mat_default_unit_system units = "USCS" ↔
      ∃ u ∈ units, contains_substr "lb" u = true) ∧
    (mat_default_unit_system units = "Metric" ↔
      ∀ u ∈ units, contains_substr "lb" u = false) := by
  unfold dat_default_unit_system mat_default_unit_system
  refine ⟨?_, ?_, ?_, ?_⟩
  · by_cases hmem : "lb" ∈ units
    · rw [if_pos hmem]; exact ⟨fun _ => hmem, fun _ => rfl⟩
    · rw [if_neg hmem]
      exact ⟨fun h => absurd h (by decide), fun h => absurd h hmem⟩
  · by_cases hmem : "lb" ∈ units
    · rw [if_pos hmem]
      exact ⟨fun h => absurd h (by decide), fun h => absurd hmem h⟩
    · rw [if_neg hmem]; exact ⟨fun _ => hmem, fun _ => rfl⟩
  · by_cases hany : units.any (fun u => contains_substr "lb" u)
    · rw [if_pos hany]
      exact ⟨fun _ => by simpa using List.any_eq_true.mp hany, fun _ => rfl⟩
    · rw [if_neg hany]
      refine ⟨fun h => absurd h (by decide), fun h => ?_⟩
      exact absurd (List.any_eq_true.mpr (by simpa using h)) hany
  · by_cases hany : units.any (fun u => contains_substr "lb" u)
    · rw [if_pos hany]
      refine ⟨fun h => absurd h (by decide), fun h => ?_⟩
      have h2 : ∃ u ∈ units, contains_substr "lb" u = true := by
        simpa using List.any_eq_true.mp hany
      rcases h2 with ⟨u, hu, hcu⟩
      rw [h u hu] at hcu
      exact Bool.noConfusion hcu
    · rw [if_neg hany]
      refine ⟨fun _ u hu => ?_, fun _ => rfl⟩
      by_contra hcu
      rw [Bool.not_eq_false] at hcu
      exact absurd (List.any_eq_true.mpr (by exact ⟨u, hu, hcu⟩)) hany

/-- Claim C6, counterexample to the claim as stated: the unit string `lbf`
contains the substring `lb`, yet the DAT importer's fallback yields Metric
for the unit list `["lbf"]` (its test is exact list membership of `lb`). -/
theorem claim_C6_counterexample :
    dat_default_unit_system ["lbf"] = "Metric" ∧
    contains_substr "lb" "lbf" = true := by
  constructor <;> decide

/-- Witness for `claim_C6_unit_system_fallback` on the unit list `["lbf"]`:
DAT falls back to Metric while MAT falls back to USCS. -/
theorem claim_C6_witness :
    dat_default_unit_system ["lbf"] = "Metric" ∧
    mat_default_unit_system ["lbf"] = "USCS" :=
  ⟨(claim_C6_unit_system_fallback ["lbf"]).2.1.mpr (by decide),
   (claim_C6_unit_system_fallback ["lbf"]).2.2.1.mpr ⟨"lbf", by decide⟩⟩

/-- Claim C8: an unsupported target sign convention makes
`convert_dataset_convention` return its input unchanged, and a target unit
system unknown to `UnitSystemConverter` makes `convert_dataset` return its
input unchanged; neither raises. -/
theorem claim_C8_invalid_target_noop :
    (∀ (d : Dataset) (t : String), ¬ validate_convention t →
      convert_dataset_convention d t = d) ∧
    (∀ (d : Dataset) (t : String), t ∉ UNIT_SYSTEMS →
      convert_dataset d t = d) := by
  constructor
  · intro d t ht
    unfold convert_dataset_convention
    by_cases hdt : d.sign_convention = t
    · rw [if_pos hdt]
    · rw [if_neg hdt, if_pos ht]
  · intro d t ht
    unfold convert_dataset
    by_cases hdt : d.unit_system = t
    · rw [if_pos hdt]
    · rw [if_neg hdt, if_pos (fun h => ht h.2)]

/-- Witness for `claim_C8_invalid_target_noop` on `c5_dataset` with the
unsupported names `Bogus` (sign convention) and `Imperial` (unit system). -/
theorem claim_C8_witness :
    convert_dataset_convention c5_dataset "Bogus" = c5_dataset ∧
    convert_dataset c5_dataset "Imperial" = c5_dataset :=
  ⟨claim_C8_invalid_target_noop.1 c5_dataset "Bogus" (by decide),
   claim_C8_invalid_target_noop.2 c5_dataset "Imperial" (by decide)⟩

/-- Invariant of the argmin fold: the result either keeps the incoming best
(whose distance then bounds every remaining distance from below) or is the
absolute index of the first strict overall improvement. -/
theorem argminAux_spec (v : ℚ) (l : List ℚ) (i best : ℕ) (bestd : ℚ) :
    (argminAux v l i best bestd = best ∧
      ∀ j < l.length, bestd ≤ |v - l.getD j 0|) ∨
    (∃ j, j < l.length ∧ argminAux v l i best bestd = i + j ∧
      |v - l.getD j 0| < bestd ∧
      (∀ k < j, |v - l.getD k 0| > |v - l.getD j 0|) ∧
      (∀ k < l.length, j < k → |v - l.getD k 0| ≥ |v - l.getD j 0|)) := by
  induction l generalizing i best bestd with
  | nil =>
      left
      exact ⟨rfl, fun j hj => absurd hj (by simp)⟩
  | cons t rest ih =>
      unfold argminAux
      by_cases hlt : |v - t| < bestd
      · rw [if_pos hlt]
        rcases ih (i + 1) i |v - t| with ⟨hres, hall⟩ | ⟨j, hj, hres, hd, hpre, hsuf⟩
        · right
          refine ⟨0, by simp, by omega, by simpa using hlt, ?_, ?_⟩
          · intro k hk; omega
          · intro k hk h0k
            cases k with
            | zero => omega
            | succ k =>
                simp only [List.getD_cons_succ, List.getD_cons_zero]
                simp only [List.length_cons, Nat.succ_lt_succ_iff] at hk
                exact hall k hk
        · right
          refine ⟨j + 1, by simpa using hj, by omega, ?_, ?_, ?_⟩
          · simpa using lt_trans hd hlt
          · intro k hk
            cases k with
            | zero =>
                simp only [List.getD_cons_zero, List.getD_cons_succ]
                exact hd
            | succ k =>
                simp only [List.getD_cons_succ]
                exact hpre k (by omega)
          · intro k hk hjk
            cases k with
            | zero => omega
            | succ k =>
                simp only [List.getD_cons_succ]
                simp only [List.length_cons, Nat.succ_lt_succ_iff] at hk
                exact hsuf k hk (by omega)
      · rw [if_neg hlt]
        have hle : bestd ≤ |v - t| := not_lt.mp hlt
        rcases ih (i + 1) best bestd with ⟨hres, hall⟩ | ⟨j, hj, hres, hd, hpre, hsuf⟩
        · left
          refine ⟨hres, ?_⟩
          intro k hk
          cases k with
          | zero => simpa using hle
          | succ k =>
              simp only [List.getD_cons_succ]
              simp only [List.length_cons, Nat.succ_lt_succ_iff] at hk
              exact hall k hk
        · right
          refine ⟨j + 1, by simpa using hj, by omega, ?_, ?_, ?_⟩
          · simpa using hd
          · intro k hk
            cases k with
            | zero =>
                simp only [List.getD_cons_zero, List.getD_cons_succ]
                exact lt_of_lt_of_le hd hle
            | succ k =>
                simp only [List.getD_cons_succ]
                exact hpre k (by omega)
          · intro k hk hjk
            cases k with
            | zero => omega
            | succ k =>
                simp only [List.getD_cons_succ]
                simp only [List.length_cons, Nat.succ_lt_succ_iff] at hk
                exact hsuf k hk (by omega)

theorem get?_getD {l : List ℚ} {j : ℕ} (h : j < l.length) :
    (l.get? j).getD 0 = l.getD j 0 := by
  induction l generalizing j with
  | nil => simp at h
  | cons a l ih =>
      cases j with
      | zero => rfl
      | succ j =>
          simp only [List.get?_cons_succ, List.getD_cons_succ]
          exact ih (by simpa using h)

/-- Claim C3: each sample is discretized to the exact target value whose
absolute difference to the sample is minimal, ties broken by the first
(lowest-index) minimum; in particular the `V` samples 10 and 16 both map to
15 for the USCS targets `{0, 2, 15, 25, 45}` (no filtering applies to `V`). -/
theorem claim_C3_nearest_target :
    (∀ (targets : List ℚ) (v : ℚ), targets ≠ [] →
      ∃ j, j < targets.length ∧
        discretize_value targets v = targets.getD j 0 ∧
        (∀ k < targets.length,
          |v - targets.getD j 0| ≤ |v - targets.getD k 0|) ∧
        (∀ k < j, |v - targets.getD k 0| > |v - targets.getD j 0|)) ∧
    discretize_channel (fun c => c) [10, 16] [0, 2, 15, 25, 45] "V" =
      [15, 15] := by
  constructor
  · intro targets v hne
    match targets with
    | [] => exact absurd rfl hne
    | t :: rest =>
        rcases argminAux_spec v rest 1 0 |v - t| with
          ⟨hres, hall⟩ | ⟨j, hj, hres, hd, hpre, hsuf⟩
        · refine ⟨0, by simp, ?_, ?_, ?_⟩
          · show ((t :: rest).get? (argminAux v rest 1 0 |v - t|)).getD 0 =
              (t :: rest).getD 0 0
            rw [hres]
            rfl
          · intro k hk
            cases k with
            | zero => simp
            | succ k =>
                simp only [List.getD_cons_succ, List.getD_cons_zero]
                simp only [List.length_cons, Nat.succ_lt_succ_iff] at hk
                exact hall k hk
          · intro k hk; omega
        · refine ⟨j + 1, by simpa using hj, ?_, ?_, ?_⟩
          · show ((t :: rest).get? (argminAux v rest 1 0 |v - t|)).getD 0 =
              (t :: rest).getD (j + 1) 0
            rw [hres, Nat.add_comm 1 j, List.get?_cons_succ,
                List.getD_cons_succ]
            exact get?_getD hj
          · intro k hk
            rw [List.getD_cons_succ]
            cases k with
            | zero =>
                simp only [List.getD_cons_zero]
                exact le_of_lt hd
            | succ k =>
                rw [List.getD_cons_succ]
                simp only [List.length_cons, Nat.succ_lt_succ_iff] at hk
                by_cases hkj : k < j
                · exact le_of_lt (hpre k hkj)
                · by_cases hkj2 : k = j
                  · cases hkj2; exact le_refl _
                  · exact hsuf k hk (by omega)
          · intro k hk
            rw [List.getD_cons_succ]
            cases k with
            | zero =>
                simp only [List.getD_cons_zero]
                exact hd
            | succ k =>
                rw [List.getD_cons_succ]
                exact hpre k (by omega)
  · unfold discretize_channel
    rw [if_neg (by decide)]
    simp only [List.map_cons, List.map_nil]
    norm_num [discretize_value, argminAux, abs_eq_max_neg, max_def]

/-- Witness for `claim_C3_nearest_target`: the USCS `V` targets at sample
10. -/
theorem claim_C3_witness :
    ∃ j, j < ([0, 2, 15, 25, 45] : List ℚ).length ∧
      discretize_value [0, 2, 15, 25, 45] 10 =
        ([0, 2, 15, 25, 45] : List ℚ).getD j 0 ∧
      (∀ k < ([0, 2, 15, 25, 45] : List ℚ).length,
        |10 - ([0, 2, 15, 25, 45] : List ℚ).getD j 0| ≤
          |10 - ([0, 2, 15, 25, 45] : List ℚ).getD k 0|) ∧
      (∀ k < j, |10 - ([0, 2, 15, 25, 45] : List ℚ).getD k 0| >
          |10 - ([0, 2, 15, 25, 45] : List ℚ).getD j 0|) :=
  claim_C3_nearest_target.1 [0, 2, 15, 25, 45] 10 (by decide)

theorem convert_channel_length (channels : List String) (data : Mat)
    (a b : String) :
    (convert_channel_convention channels data a b).length = data.length := by
  unfold convert_channel_convention
  split_ifs <;> simp [mapi_length]

/-- Converting a data matrix to SAE and back to the original convention is
the identity, for any original convention (unsupported ones make both
conversions no-ops). -/
theorem convert_channel_round_trip (channels : List String) (data : Mat)
    (cur : String) :
    convert_channel_convention channels
      (convert_channel_convention channels data cur "SAE") "SAE" cur =
      data := by
  by_cases hsae : cur = "SAE"
  · subst hsae
    rw [convert_channel_convention, if_pos rfl, convert_channel_convention,
        if_pos rfl]
  · by_cases hval : validate_convention cur
    · have hin : convert_channel_convention channels data cur "SAE" =
          mapi (convention_col channels cur "SAE") 0 data := by
        rw [convert_channel_convention, if_neg hsae,
            if_neg (not_not_intro (by decide)), if_neg (not_not_intro hval)]
      rw [hin, convert_channel_convention, if_neg (Ne.symm hsae),
          if_neg (not_not_intro hval), if_neg (not_not_intro (by decide)),
          mapi_mapi]
      exact mapi_id _ 0 data (fun j col =>
        convention_col_round_trip channels cur "SAE" hval (by decide) j col)
    · have hin : convert_channel_convention channels data cur "SAE" =
          data := by
        rw [convert_channel_convention, if_neg hsae,
            if_neg (not_not_intro (by decide)), if_pos hval]
      rw [hin, convert_channel_convention, if_neg (Ne.symm hsae), if_pos hval]

theorem gen_loop_lockstep (filt : Col → Col) (ch un : List String) (dt : Mat)
    (us : String) (ex : List String)
    (entries : List (String × List (String × List ℚ))) :
    (gen_loop filt ch un dt us ex entries).2.1.length =
      (gen_loop filt ch un dt us ex entries).1.length ∧
    (gen_loop filt ch un dt us ex entries).2.2.length =
      (gen_loop filt ch un dt us ex entries).1.length := by
  induction entries with
  | nil => exact ⟨rfl, rfl⟩
  | cons e rest ih =>
      obtain ⟨e1, e2⟩ := e
      unfold gen_loop
      by_cases hex : ("Cmd" ++ e1) ∈ ex
      · rw [if_pos hex]; exact ih
      · rw [if_neg hex]
        by_cases hch : e1 ∉ ch
        · rw [if_pos hch]; exact ih
        · rw [if_neg hch]
          cases hlk : lookupTable e2 us with
          | none => simp only [hlk]; exact ih
          | some tgt => simp [hlk, ih.1, ih.2]

theorem gen_loop_skip (filt : Col → Col) (ch un : List String) (dt : Mat)
    (us : String) (ex : List String)
    (entries : List (String × List (String × List ℚ)))
    (h : ∀ e ∈ entries,
      ("Cmd" ++ e.1) ∈ ex ∨ e.1 ∉ ch ∨ lookupTable e.2 us = none) :
    gen_loop filt ch un dt us ex entries = ([], [], []) := by
  induction entries with
  | nil => rfl
  | cons e rest ih =>
      obtain ⟨e1, e2⟩ := e
      have he := h (e1, e2) (List.mem_cons_self _ _)
      have hrest := fun e' he' => h e' (List.mem_cons_of_mem _ he')
      unfold gen_loop
      by_cases hex : ("Cmd" ++ e1) ∈ ex
      · rw [if_pos hex]; exact ih hrest
      · rw [if_neg hex]
        by_cases hch : e1 ∉ ch
        · rw [if_pos hch]; exact ih hrest
        · rw [if_neg hch]
          have h3 : lookupTable e2 us = none := by
            rcases he with h1 | h2 | h3
            · exact absurd h1 hex
            · exact absurd h2 hch
            · exact h3
          simp only [h3]
          exact ih hrest

theorem gen_loop_names (filt : Col → Col) (ch un : List String) (dt : Mat)
    (us : String) (ex : List String)
    (entries : List (String × List (String × List ℚ))) :
    ∀ x ∈ (gen_loop filt ch un dt us ex entries).1,
      ∃ e ∈ entries, x = "Cmd" ++ e.1 := by
  induction entries with
  | nil => intro x hx; exact absurd hx (by simp [gen_loop])
  | cons e rest ih =>
      obtain ⟨e1, e2⟩ := e
      intro x hx
      unfold gen_loop at hx
      by_cases hex : ("Cmd" ++ e1) ∈ ex
      · rw [if_pos hex] at hx
        rcases ih x hx with ⟨e', he', hx'⟩
        exact ⟨e', List.mem_cons_of_mem _ he', hx'⟩
      · rw [if_neg hex] at hx
        by_cases hch : e1 ∉ ch
        · rw [if_pos hch] at hx
          rcases ih x hx with ⟨e', he', hx'⟩
          exact ⟨e', List.mem_cons_of_mem _ he', hx'⟩
        · rw [if_neg hch] at hx
          cases hlk : lookupTable e2 us with
          | none =>
              simp only [hlk] at hx
              rcases ih x hx with ⟨e', he', hx'⟩
              exact ⟨e', List.mem_cons_of_mem _ he', hx'⟩
          | some tgt =>
              simp only [hlk] at hx
              rcases List.mem_cons.mp hx with hx' | hx'
              · exact ⟨(e1, e2), List.mem_cons_self _ _, hx'⟩
              · rcases ih x hx' with ⟨e', he', hx''⟩
                exact ⟨e', List.mem_cons_of_mem _ he', hx''⟩

theorem gen_loop_created (filt : Col → Col) (ch un : List String) (dt : Mat)
    (us : String) (ex : List String)
    (entries : List (String × List (String × List ℚ))) :
    ∀ e ∈ entries, ("Cmd" ++ e.1) ∉ ex → e.1 ∈ ch →
      (lookupTable e.2 us).isSome →
      ("Cmd" ++ e.1) ∈ (gen_loop filt ch un dt us ex entries).1 := by
  induction entries with
  | nil => intro e he; cases he
  | cons hd rest ih =>
      obtain ⟨h1, h2⟩ := hd
      intro e he hnex hech hlk
      rcases List.mem_cons.mp he with heq | hmem
      · subst heq
        unfold gen_loop
        rw [if_neg hnex, if_neg (not_not_intro hech)]
        rcases Option.isSome_iff_exists.mp hlk with ⟨tgt, htgt⟩
        simp only [htgt]
        exact List.mem_cons_self _ _
      · have htail := ih e hmem hnex hech hlk
        unfold gen_loop
        by_cases hex : ("Cmd" ++ h1) ∈ ex
        · rw [if_pos hex]; exact htail
        · rw [if_neg hex]
          by_cases hch : h1 ∉ ch
          · rw [if_pos hch]; exact htail
          · rw [if_neg hch]
            cases hlk2 : lookupTable h2 us with
            | none => simp only [hlk2]; exact htail
            | some tgt =>
                simp only [hlk2]
                exact List.mem_cons_of_mem _ htail

theorem get_existing_sub {ch : List String} {x : String}
    (h : x ∈ get_existing_cmd_channels ch) : x ∈ ch := by
  unfold get_existing_cmd_channels at h
  rcases List.mem_filterMap.mp h with ⟨a, _, hfa⟩
  by_cases hc : ("Cmd" ++ a) ∈ ch
  · rw [if_pos hc] at hfa
    cases hfa
    exact hc
  · rw [if_neg hc] at hfa
    exact Option.noConfusion hfa

theorem mem_get_existing {ch : List String} {chan : String}
    (hk : chan ∈ CMD_TARGETS.map Prod.fst) (h : ("Cmd" ++ chan) ∈ ch) :
    ("Cmd" ++ chan) ∈ get_existing_cmd_channels ch :=
  List.mem_filterMap.mpr ⟨chan, hk, by rw [if_pos h]⟩

/-- No source-channel key of `CMD_TARGETS` is itself a `Cmd` name. -/
theorem cmd_key_ne_cmd : ∀ a ∈ CMD_TARGETS.map Prod.fst,
    ∀ b ∈ CMD_TARGETS.map Prod.fst, a ≠ "Cmd" ++ b := by decide

/-- Every `CMD_TARGETS` entry defines targets for both valid unit systems. -/
theorem cmd_lookup_some : ∀ e ∈ CMD_TARGETS,
    ∀ u ∈ (["USCS", "Metric"] : List String),
      (lookupTable e.2 u).isSome = true := by decide

theorem generate_lockstep (filt : Col → Col) (ch un : List String) (dt : Mat)
    (us : String) (ex : List String) :
    (generate_cmd_channels filt ch un dt us ex).2.1.length =
      (generate_cmd_channels filt ch un dt us ex).1.length ∧
    (generate_cmd_channels filt ch un dt us ex).2.2.length =
      (generate_cmd_channels filt ch un dt us ex).1.length :=
  gen_loop_lockstep filt ch un dt us ex CMD_TARGETS

theorem generate_skip (filt : Col → Col) (ch un : List String) (dt : Mat)
    (us : String) (ex : List String)
    (h : ∀ e ∈ CMD_TARGETS,
      ("Cmd" ++ e.1) ∈ ex ∨ e.1 ∉ ch ∨ lookupTable e.2 us = none) :
    generate_cmd_channels filt ch un dt us ex = ([], [], []) :=
  gen_loop_skip filt ch un dt us ex CMD_TARGETS h

theorem generate_names (filt : Col → Col) (ch un : List String) (dt : Mat)
    (us : String) (ex : List String) :
    ∀ x ∈ (generate_cmd_channels filt ch un dt us ex).1,
      ∃ e ∈ CMD_TARGETS, x = "Cmd" ++ e.1 :=
  gen_loop_names filt ch un dt us ex CMD_TARGETS

theorem generate_created (filt : Col → Col) (ch un : List String) (dt : Mat)
    (us : String) (ex : List String) :
    ∀ e ∈ CMD_TARGETS, ("Cmd" ++ e.1) ∉ ex → e.1 ∈ ch →
      (lookupTable e.2 us).isSome →
      ("Cmd" ++ e.1) ∈ (generate_cmd_channels filt ch un dt us ex).1 :=
  gen_loop_created filt ch un dt us ex CMD_TARGETS

/-- When every command channel is already present, `get_existing` is full. -/
theorem get_existing_all {ch : List String}
    (h : ∀ chan ∈ CMD_TARGETS.map Prod.fst, ("Cmd" ++ chan) ∈ ch) :
    (get_existing_cmd_channels ch).length = CMD_TARGETS.length := by
  unfold get_existing_cmd_channels
  have haux : ∀ l : List String, (∀ a ∈ l, ("Cmd" ++ a) ∈ ch) →
      (l.filterMap (fun chan =>
        if ("Cmd" ++ chan) ∈ ch then some ("Cmd" ++ chan)
        else none)).length = l.length := by
    intro l
    induction l with
    | nil => intro _; rfl
    | cons a l ih =>
        intro hl
        rw [List.filterMap_cons, if_pos (hl a (List.mem_cons_self _ _))]
        simp [ih (fun b hb => hl b (List.mem_cons_of_mem _ hb))]
  rw [haux _ h, List.length_map]

/-- Unfolding of `create_cmd_channels` on its main (generate) branch; the
`if new_channels:` guards collapse to unconditional appends because the three
generated lists are empty together. -/
theorem create_main_eq (filt : Col → Col) (ch un : List String) (dt : Mat)
    (us sc : String)
    (h5 : ¬ (get_existing_cmd_channels ch).length = CMD_TARGETS.length)
    (hval : validate_inputs ch un dt us) :
    create_cmd_channels filt ch un dt us sc =
      (ch ++ (generate_cmd_channels filt ch un
          (convert_channel_convention ch dt sc "SAE") us
          (get_existing_cmd_channels ch)).1,
       un ++ (generate_cmd_channels filt ch un
          (convert_channel_convention ch dt sc "SAE") us
          (get_existing_cmd_channels ch)).2.1,
       convert_channel_convention
         (ch ++ (generate_cmd_channels filt ch un
            (convert_channel_convention ch dt sc "SAE") us
            (get_existing_cmd_channels ch)).1)
         (convert_channel_convention ch dt sc "SAE" ++
           (generate_cmd_channels filt ch un
             (convert_channel_convention ch dt sc "SAE") us
             (get_existing_cmd_channels ch)).2.2)
         "SAE" sc) := by
  unfold create_cmd_channels
  rw [if_neg h5, if_neg (not_not_intro hval)]
  simp only []
  set S := convert_channel_convention ch dt sc "SAE" with hS
  set G := generate_cmd_channels filt ch un S us (get_existing_cmd_channels ch)
    with hG
  have hlock := generate_lockstep filt ch un S us (get_existing_cmd_channels ch)
  rw [← hG] at hlock
  by_cases hne : G.1 = []
  · rw [if_neg (not_not_intro hne), if_neg (not_not_intro hne),
        if_neg (not_not_intro hne)]
    have h21 : G.2.1 = [] := by
      rw [← List.length_eq_zero, hlock.1, hne]; rfl
    have h22 : G.2.2 = [] := by
      rw [← List.length_eq_zero, hlock.2, hne]; rfl
    rw [hne, h21, h22, List.append_nil, List.append_nil, List.append_nil]
  · rw [if_pos hne, if_pos hne, if_pos hne]

/-- A second application of `create_cmd_channels` with the same unit system
and sign convention is the identity on the first application's output. -/
theorem create_cmd_channels_twice (filt : Col → Col) (ch un : List String)
    (dt : Mat) (us sc : String) :
    create_cmd_channels filt (create_cmd_channels filt ch un dt us sc).1
      (create_cmd_channels filt ch un dt us sc).2.1
      (create_cmd_channels filt ch un dt us sc).2.2 us sc =
      create_cmd_channels filt ch un dt us sc := by
  by_cases h5 : (get_existing_cmd_channels ch).length = CMD_TARGETS.length
  · have h1 : create_cmd_channels filt ch un dt us sc = (ch, un, dt) := by
      unfold create_cmd_channels; rw [if_pos h5]
    rw [h1]
    exact h1
  · by_cases hval : validate_inputs ch un dt us
    · rw [create_main_eq filt ch un dt us sc h5 hval]
      set S := convert_channel_convention ch dt sc "SAE" with hS
      set G := generate_cmd_channels filt ch un S us
        (get_existing_cmd_channels ch) with hG
      set ch2 := ch ++ G.1 with hch2
      set un2 := un ++ G.2.1 with hun2
      set rd := convert_channel_convention ch2 (S ++ G.2.2) "SAE" sc with hrd
      show create_cmd_channels filt ch2 un2 rd us sc = (ch2, un2, rd)
      by_cases h5' :
          (get_existing_cmd_channels ch2).length = CMD_TARGETS.length
      · unfold create_cmd_channels; rw [if_pos h5']
      · have hlock := generate_lockstep filt ch un S us
          (get_existing_cmd_channels ch)
        rw [← hG] at hlock
        have hval2 : validate_inputs ch2 un2 rd us := by
          have hlen1 : ch2.length = ch.length + G.1.length := by
            rw [hch2, List.length_append]
          have hlen2 : un2.length = un.length + G.2.1.length := by
            rw [hun2, List.length_append]
          have hlen3 : rd.length = dt.length + G.2.2.length := by
            rw [hrd, convert_channel_length, List.length_append, hS,
                convert_channel_length]
          have hl1 := hval.1
          have hl2 := hval.2.1
          exact ⟨by omega, by omega, hval.2.2⟩
        rw [create_main_eq filt ch2 un2 rd us sc h5' hval2]
        have hG2 : generate_cmd_channels filt ch2 un2
            (convert_channel_convention ch2 rd sc "SAE") us
            (get_existing_cmd_channels ch2) = ([], [], []) := by
          apply generate_skip
          intro e he
          by_cases hc2 : ("Cmd" ++ e.1) ∈ ch2
          · exact Or.inl (mem_get_existing (List.mem_map_of_mem Prod.fst he) hc2)
          · by_cases hlk : lookupTable e.2 us = none
            · exact Or.inr (Or.inr hlk)
            · refine Or.inr (Or.inl ?_)
              intro hmem
              rw [hch2] at hmem
              rcases List.mem_append.mp hmem with hin | hin
              · by_cases hex : ("Cmd" ++ e.1) ∈ get_existing_cmd_channels ch
                · refine hc2 ?_
                  rw [hch2]
                  exact List.mem_append_left _ (get_existing_sub hex)
                · have hcre : ("Cmd" ++ e.1) ∈ G.1 := by
                    rw [hG]
                    exact generate_created filt ch un S us
                      (get_existing_cmd_channels ch) e he hex hin
                      (Option.ne_none_iff_isSome.mp hlk)
                  refine hc2 ?_
                  rw [hch2]
                  exact List.mem_append_right _ hcre
              · have hin2 : e.1 ∈ (generate_cmd_channels filt ch un S us
                    (get_existing_cmd_channels ch)).1 := by rw [← hG]; exact hin
                rcases generate_names filt ch un S us
                    (get_existing_cmd_channels ch) e.1 hin2 with ⟨e', he', heq⟩
                exact cmd_key_ne_cmd e.1 (List.mem_map_of_mem Prod.fst he) e'.1
                  (List.mem_map_of_mem Prod.fst he') heq
        rw [hG2]
        simp only [List.append_nil]
        rw [convert_channel_round_trip]
    · have h1 : create_cmd_channels filt ch un dt us sc = (ch, un, dt) := by
        unfold create_cmd_channels
        rw [if_neg h5, if_pos hval]
      rw [h1]
      exact h1

/-- Claim C4: `create_cmd_channels` returns its input unchanged when every
command channel already exists, and applying it twice (same unit system and
sign convention) yields exactly the output of applying it once — no `Cmd*`
column is ever duplicated. -/
theorem claim_C4_create_idempotent :
    (∀ (filt : Col → Col) (channels units : List String) (data : Mat)
        (unit_system sign_convention : String),
      (∀ chan ∈ CMD_TARGETS.map Prod.fst, ("Cmd" ++ chan) ∈ channels) →
      create_cmd_channels filt channels units data unit_system
          sign_convention = (channels, units, data)) ∧
    (∀ (filt : Col → Col) (channels units : List String) (data : Mat)
        (unit_system sign_convention : String),
      create_cmd_channels filt
          (create_cmd_channels filt channels units data unit_system
            sign_convention).1
          (create_cmd_channels filt channels units data unit_system
            sign_convention).2.1
          (create_cmd_channels filt channels units data unit_system
            sign_convention).2.2 unit_system sign_convention =
        create_cmd_channels filt channels units data unit_system
          sign_convention) := by
  constructor
  · intro filt ch un dt us sc hall
    unfold create_cmd_channels
    rw [if_pos (get_existing_all hall)]
  · intro filt ch un dt us sc
    exact create_cmd_channels_twice filt ch un dt us sc

/-- Witness for `claim_C4_create_idempotent`: all five command channels
already present makes the call a no-op. -/
theorem claim_C4_witness :
    create_cmd_channels (fun c => c)
        ["CmdV", "CmdP", "CmdFZ", "CmdIA", "CmdSA"]
        ["mph", "psi", "lb", "deg", "deg"] [[], [], [], [], []] "USCS"
        "SAE" =
      (["CmdV", "CmdP", "CmdFZ", "CmdIA", "CmdSA"],
       ["mph", "psi", "lb", "deg", "deg"], [[], [], [], [], []]) :=
  claim_C4_create_idempotent.1 (fun c => c)
    ["CmdV", "CmdP", "CmdFZ", "CmdIA", "CmdSA"]
    ["mph", "psi", "lb", "deg", "deg"] [[], [], [], [], []] "USCS" "SAE"
    (by decide)

theorem list_datasets_cons (kv : String × Dataset) (m : DataManager) :
    list_datasets (kv :: m) = kv.1 :: list_datasets m := rfl

theorem list_datasets_append (a b : DataManager) :
    list_datasets (a ++ b) = list_datasets a ++ list_datasets b :=
  List.map_append Prod.fst a b

theorem dict_insert_fresh (acc : DataManager) (k : String) (v : Dataset)
    (h : k ∉ list_datasets acc) : dict_insert acc k v = acc ++ [(k, v)] := by
  induction acc with
  | nil => rfl
  | cons p rest ih =>
      obtain ⟨k', v'⟩ := p
      rw [list_datasets_cons, List.mem_cons, not_or] at h
      unfold dict_insert
      rw [if_neg (fun he => h.1 he.symm)]
      rw [ih h.2, List.cons_append]

theorem dict_insert_update (pre post : DataManager) (k : String)
    (v w : Dataset) (h : k ∉ list_datasets pre) :
    dict_insert (pre ++ (k, w) :: post) k v = pre ++ (k, v) :: post := by
  induction pre with
  | nil => simp [dict_insert]
  | cons p rest ih =>
      obtain ⟨k', v'⟩ := p
      rw [list_datasets_cons, List.mem_cons, not_or] at h
      rw [List.cons_append]
      unfold dict_insert
      rw [if_neg (fun he => h.1 he.symm)]
      rw [ih h.2, List.cons_append]

theorem rename_entry_fst (old_name new_name : String)
    (kv : String × Dataset) :
    (rename_entry old_name new_name kv).1 =
      if kv.1 = old_name then new_name else kv.1 := by
  unfold rename_entry
  by_cases h : kv.1 = old_name
  · rw [if_pos h, if_pos h]
  · rw [if_neg h, if_neg h]

/-- The rebuild loop of `update_dataset` appends the renamed entries in
order when the renamed keys are fresh for the accumulator and mutually
distinct. -/
theorem fold_rename (old_name new_name : String) (m : DataManager) :
    ∀ acc : DataManager,
      (∀ kv ∈ m,
        (rename_entry old_name new_name kv).1 ∉ list_datasets acc) →
      (m.map (fun kv => (rename_entry old_name new_name kv).1)).Nodup →
      m.foldl (fun acc kv =>
          if kv.1 = old_name then dict_insert acc new_name kv.2
          else dict_insert acc kv.1 kv.2) acc =
        acc ++ m.map (rename_entry old_name new_name) := by
  induction m with
  | nil => intro acc _ _; simp
  | cons kv rest ih =>
      intro acc hfresh hnd
      rw [List.map_cons, List.nodup_cons] at hnd
      rw [List.foldl_cons, List.map_cons]
      have hstep : (if kv.1 = old_name then dict_insert acc new_name kv.2
          else dict_insert acc kv.1 kv.2) =
          acc ++ [rename_entry old_name new_name kv] := by
        have hf := hfresh kv (List.mem_cons_self _ _)
        by_cases hk : kv.1 = old_name
        · rw [rename_entry_fst, if_pos hk] at hf
          rw [if_pos hk, dict_insert_fresh acc new_name kv.2 hf]
          unfold rename_entry
          rw [if_pos hk]
        · rw [rename_entry_fst, if_neg hk] at hf
          rw [if_neg hk, dict_insert_fresh acc kv.1 kv.2 hf]
          unfold rename_entry
          rw [if_neg hk]
      rw [hstep]
      have hfresh2 : ∀ kv' ∈ rest, (rename_entry old_name new_name kv').1 ∉
          list_datasets (acc ++ [rename_entry old_name new_name kv]) := by
        intro kv' hkv'
        rw [list_datasets_append, List.mem_append, not_or]
        refine ⟨hfresh kv' (List.mem_cons_of_mem _ hkv'), ?_⟩
        simp only [list_datasets, List.map_cons, List.map_nil,
          List.mem_singleton]
        intro heq
        exact hnd.1 (heq ▸ List.mem_map_of_mem
          (fun kv'' => (rename_entry old_name new_name kv'').1) hkv')
      rw [ih (acc ++ [rename_entry old_name new_name kv]) hfresh2 hnd.2,
          List.append_assoc]
      rfl

/-- Mapping the rename over the keys of a nodup-keyed manager that does not
already contain `new` keeps the keys nodup. -/
theorem rename_keys_nodup (old_name new_name : String) (m : DataManager)
    (hnd : (list_datasets m).Nodup) (hnew : new_name ∉ list_datasets m) :
    (m.map (fun kv => (rename_entry old_name new_name kv).1)).Nodup := by
  induction m with
  | nil => exact List.nodup_nil
  | cons kv rest ih =>
      rw [list_datasets_cons] at hnd hnew
      have hnd' := List.nodup_cons.mp hnd
      rw [List.mem_cons, not_or] at hnew
      rw [List.map_cons, List.nodup_cons]
      refine ⟨?_, ih hnd'.2 hnew.2⟩
      intro hmem
      rcases List.mem_map.mp hmem with ⟨kv', hkv', heq⟩
      have h1 : kv'.1 ∈ list_datasets rest :=
        List.mem_map_of_mem Prod.fst hkv'
      rw [rename_entry_fst, rename_entry_fst] at heq
      by_cases ha : kv'.1 = old_name <;> by_cases hb : kv.1 = old_name
      · rw [if_pos ha, if_pos hb] at heq
        exact hnd'.1 (by rw [hb, ← ha]; exact h1)
      · rw [if_pos ha, if_neg hb] at heq
        exact hnew.1 heq
      · rw [if_neg ha, if_pos hb] at heq
        exact hnew.2 (heq ▸ h1)
      · rw [if_neg ha, if_neg hb] at heq
        exact hnd'.1 (heq ▸ h1)

/-- The rebuild loop passes a segment without the renamed key through
unchanged (appended to the accumulator). -/
theorem fold_seg (old_name new_name : String) (seg : DataManager) :
    ∀ acc : DataManager,
      (∀ kv ∈ seg, kv.1 ≠ old_name) →
      (∀ kv ∈ seg, kv.1 ∉ list_datasets acc) →
      (list_datasets seg).Nodup →
      seg.foldl (fun acc kv =>
          if kv.1 = old_name then dict_insert acc new_name kv.2
          else dict_insert acc kv.1 kv.2) acc = acc ++ seg := by
  induction seg with
  | nil => intro acc _ _ _; simp
  | cons kv rest ih =>
      intro acc hso hfresh hnd
      rw [list_datasets_cons] at hnd
      have hnd' := List.nodup_cons.mp hnd
      rw [List.foldl_cons, if_neg (hso kv (List.mem_cons_self _ _)),
          dict_insert_fresh acc kv.1 kv.2 (hfresh kv (List.mem_cons_self _ _))]
      have hfresh2 : ∀ kv' ∈ rest,
          kv'.1 ∉ list_datasets (acc ++ [(kv.1, kv.2)]) := by
        intro kv' hkv'
        rw [list_datasets_append, List.mem_append, not_or]
        refine ⟨hfresh kv' (List.mem_cons_of_mem _ hkv'), ?_⟩
        simp only [list_datasets, List.map_cons, List.map_nil,
          List.mem_singleton]
        intro heq
        exact hnd'.1 (heq ▸ List.mem_map_of_mem Prod.fst hkv')
      rw [ih (acc ++ [(kv.1, kv.2)])
            (fun kv' h' => hso kv' (List.mem_cons_of_mem _ h')) hfresh2
            hnd'.2,
          List.append_assoc]
      rfl

/-- Unpacking of the nodup hypothesis for a key sequence of the shape
`P ++ o :: M ++ n :: Q`. -/
theorem nodup_decompose {P M Q : List String} {o n : String}
    (hnd : (P ++ o :: (M ++ n :: Q)).Nodup) :
    P.Nodup ∧ M.Nodup ∧ Q.Nodup ∧ o ∉ P ∧ n ∉ P ∧ o ∉ M ∧ n ∉ M ∧ o ∉ Q ∧
      n ∉ Q ∧ o ≠ n ∧ (∀ k ∈ M, k ∉ P) ∧ (∀ k ∈ Q, k ∉ P) ∧
      (∀ k ∈ Q, k ∉ M) := by
  obtain ⟨hP, hrest1, hdis1⟩ := List.nodup_append.mp hnd
  obtain ⟨hoMem, hrest2⟩ := List.nodup_cons.mp hrest1
  obtain ⟨hM, hrest3, hdis2⟩ := List.nodup_append.mp hrest2
  obtain ⟨hnQ, hQ⟩ := List.nodup_cons.mp hrest3
  refine ⟨hP, hM, hQ, ?_, ?_, ?_, ?_, ?_, hnQ, ?_, ?_, ?_, ?_⟩
  · exact fun h => hdis1 h (List.mem_cons_self _ _)
  · exact fun h => hdis1 h (List.mem_cons_of_mem _
      (List.mem_append_right _ (List.mem_cons_self _ _)))
  · exact fun h => hoMem (List.mem_append_left _ h)
  · exact fun h => hdis2 h (List.mem_cons_self _ _)
  · exact fun h => hoMem (List.mem_append_right _ (List.mem_cons_of_mem _ h))
  · exact fun he => hoMem
      (List.mem_append_right _ (he ▸ List.mem_cons_self _ _))
  · exact fun k hk hP' => hdis1 hP'
      (List.mem_cons_of_mem _ (List.mem_append_left _ hk))
  · exact fun k hk hP' => hdis1 hP'
      (List.mem_cons_of_mem _
        (List.mem_append_right _ (List.mem_cons_of_mem _ hk)))
  · exact fun k hk hM' => hdis2 hM' (List.mem_cons_of_mem _ hk)

/-- Claim C9, amended: provided the new name is not already a key, a rename
replaces the old name by the new name in place — `list_datasets` afterwards
is the pointwise renaming of `list_datasets` before, so every entry keeps
its position; renaming an absent name returns `(m, false)` and renaming a
present name to itself is a no-op returning `(m, true)`. -/
theorem claim_C9_rename_preserves_order (m : DataManager)
    (old_name new_name : String) (hnd : (list_datasets m).Nodup) :
    (old_name ∉ list_datasets m →
      update_dataset m old_name new_name = (m, false)) ∧
    (old_name ∈ list_datasets m → old_name = new_name →
      update_dataset m old_name new_name = (m, true)) ∧
    (old_name ∈ list_datasets m → new_name ∉ list_datasets m →
      (update_dataset m old_name new_name).2 = true ∧
      list_datasets (update_dataset m old_name new_name).1 =
        (list_datasets m).map
          (fun k => if k = old_name then new_name else k)) := by
  refine ⟨?_, ?_, ?_⟩
  · intro h
    unfold update_dataset
    rw [if_pos h]
  · intro hmem heq
    unfold update_dataset
    rw [if_neg (not_not_intro hmem), if_neg (not_not_intro heq)]
  · intro hmem hnew
    have hne : old_name ≠ new_name := fun he => hnew (he ▸ hmem)
    unfold update_dataset
    rw [if_neg (not_not_intro hmem), if_pos hne]
    refine ⟨rfl, ?_⟩
    rw [fold_rename old_name new_name m []
          (fun kv _ => by simp [list_datasets])
          (rename_keys_nodup old_name new_name m hnd hnew),
        List.nil_append]
    unfold list_datasets
    rw [List.map_map, List.map_map]
    apply List.map_congr_left
    intro kv _
    simp only [Function.comp]
    rw [rename_entry_fst]

/-- Claim C9, counterexample to the claim as stated: renaming `a` onto the
already-present name `b` collapses the two entries — `list_datasets` shrinks
from `["a", "b"]` to `["b"]`, which differs in more than the renamed entry's
string value. -/
theorem claim_C9_counterexample :
    list_datasets [("a", d_a), ("b", d_b)] = ["a", "b"] ∧
    list_datasets (update_dataset [("a", d_a), ("b", d_b)] "a" "b").1 =
      ["b"] := by
  constructor <;> decide

/-- Witness for `claim_C9_rename_preserves_order`: renaming `a` to the fresh
name `c` in a two-entry manager. -/
theorem claim_C9_witness :
    (update_dataset [("a", d_a), ("b", d_b)] "a" "c").2 = true ∧
    list_datasets (update_dataset [("a", d_a), ("b", d_b)] "a" "c").1 =
      (list_datasets [("a", d_a), ("b", d_b)]).map
        (fun k => if k = "a" then "c" else k) :=
  (claim_C9_rename_preserves_order [("a", d_a), ("b", d_b)] "a" "c"
    (by decide)).2.2 (by decide) (by decide)

/-- Claim C10: renaming `old` onto an already-present distinct name `new`
returns `true` and collapses the two entries: only `new` survives, at the
earlier of the two original positions, holding the dataset of whichever of
the two entries came later in insertion order; the other dataset is
discarded and every other entry keeps its position. -/
theorem claim_C10_rename_collision (old_name new_name : String)
    (hne : old_name ≠ new_name) :
    (∀ (pre mid post : DataManager) (d1 d2 : Dataset),
      (list_datasets
        (pre ++ (old_name, d1) :: (mid ++ (new_name, d2) :: post))).Nodup →
      update_dataset
          (pre ++ (old_name, d1) :: (mid ++ (new_name, d2) :: post))
          old_name new_name =
        (pre ++ (new_name, d2) :: (mid ++ post), true)) ∧
    (∀ (pre mid post : DataManager) (d1 d2 : Dataset),
      (list_datasets
        (pre ++ (new_name, d2) :: (mid ++ (old_name, d1) :: post))).Nodup →
      update_dataset
          (pre ++ (new_name, d2) :: (mid ++ (old_name, d1) :: post))
          old_name new_name =
        (pre ++ (new_name, d1) :: (mid ++ post), true)) := by
  constructor
  · intro pre mid post d1 d2 hnd
    have hK : list_datasets
        (pre ++ (old_name, d1) :: (mid ++ (new_name, d2) :: post)) =
        list_datasets pre ++ old_name ::
          (list_datasets mid ++ new_name :: list_datasets post) := by
      simp [list_datasets_append, list_datasets_cons]
    rw [hK] at hnd
    obtain ⟨hP, hM, hQ, hoP, hnP, hoM, hnM, hoQ, hnQ, hon, hMP, hQP, hQM⟩ :=
      nodup_decompose hnd
    have hmem : old_name ∈ list_datasets
        (pre ++ (old_name, d1) :: (mid ++ (new_name, d2) :: post)) := by
      rw [hK]
      exact List.mem_append_right _ (List.mem_cons_self _ _)
    unfold update_dataset
    rw [if_neg (not_not_intro hmem), if_pos hne]
    have h1 : (pre ++ (old_name, d1) :: (mid ++ (new_name, d2) :: post)) =
        pre ++ ((old_name, d1) :: (mid ++ (new_name, d2) :: post)) := rfl
    rw [h1, List.foldl_append,
        fold_seg old_name new_name pre []
          (fun kv hk he => hoP (he ▸ List.mem_map_of_mem Prod.fst hk))
          (fun kv _ => by simp [list_datasets]) hP,
        List.nil_append, List.foldl_cons, if_pos rfl,
        dict_insert_fresh pre new_name d1 hnP, List.foldl_append,
        fold_seg old_name new_name mid (pre ++ [(new_name, d1)])
          (fun kv hk he => hoM (he ▸ List.mem_map_of_mem Prod.fst hk))
          (fun kv hk => by
            rw [list_datasets_append, List.mem_append, not_or]
            refine ⟨fun hp => hMP kv.1 (List.mem_map_of_mem Prod.fst hk) hp,
              ?_⟩
            simp only [list_datasets, List.map_cons, List.map_nil,
              List.mem_singleton]
            exact fun he => hnM (he ▸ List.mem_map_of_mem Prod.fst hk))
          hM,
        List.foldl_cons, if_neg (Ne.symm hne)]
    have hacc : pre ++ [(new_name, d1)] ++ mid =
        pre ++ (new_name, d1) :: mid := by
      rw [List.append_assoc]; rfl
    rw [hacc, dict_insert_update pre mid new_name d2 d1 hnP,
        fold_seg old_name new_name post (pre ++ (new_name, d2) :: mid)
          (fun kv hk he => hoQ (he ▸ List.mem_map_of_mem Prod.fst hk))
          (fun kv hk => by
            rw [list_datasets_append, List.mem_append, not_or,
                list_datasets_cons, List.mem_cons, not_or]
            exact ⟨fun hp => hQP kv.1 (List.mem_map_of_mem Prod.fst hk) hp,
              fun he => hnQ (by
                have h2 := List.mem_map_of_mem Prod.fst hk
                rwa [he] at h2),
              fun hm => hQM kv.1 (List.mem_map_of_mem Prod.fst hk) hm⟩)
          hQ,
        List.append_assoc]
    rfl
  · intro pre mid post d1 d2 hnd
    have hK : list_datasets
        (pre ++ (new_name, d2) :: (mid ++ (old_name, d1) :: post)) =
        list_datasets pre ++ new_name ::
          (list_datasets mid ++ old_name :: list_datasets post) := by
      simp [list_datasets_append, list_datasets_cons]
    rw [hK] at hnd
    obtain ⟨hP, hM, hQ, hnP, hoP, hnM, hoM, hnQ, hoQ, hno, hMP, hQP, hQM⟩ :=
      nodup_decompose hnd
    have hmem : old_name ∈ list_datasets
        (pre ++ (new_name, d2) :: (mid ++ (old_name, d1) :: post)) := by
      rw [hK]
      exact List.mem_append_right _ (List.mem_cons_of_mem _
        (List.mem_append_right _ (List.mem_cons_self _ _)))
    unfold update_dataset
    rw [if_neg (not_not_intro hmem), if_pos hne]
    have h1 : (pre ++ (new_name, d2) :: (mid ++ (old_name, d1) :: post)) =
        pre ++ ((new_name, d2) :: (mid ++ (old_name, d1) :: post)) := rfl
    rw [h1, List.foldl_append,
        fold_seg old_name new_name pre []
          (fun kv hk he => hoP (he ▸ List.mem_map_of_mem Prod.fst hk))
          (fun kv _ => by simp [list_datasets]) hP,
        List.nil_append, List.foldl_cons, if_neg (Ne.symm hne),
        dict_insert_fresh pre new_name d2 hnP, List.foldl_append,
        fold_seg old_name new_name mid (pre ++ [(new_name, d2)])
          (fun kv hk he => hoM (he ▸ List.mem_map_of_mem Prod.fst hk))
          (fun kv hk => by
            rw [list_datasets_append, List.mem_append, not_or]
            refine ⟨fun hp => hMP kv.1 (List.mem_map_of_mem Prod.fst hk) hp,
              ?_⟩
            simp only [list_datasets, List.map_cons, List.map_nil,
              List.mem_singleton]
            exact fun he => hnM (he ▸ List.mem_map_of_mem Prod.fst hk))
          hM,
        List.foldl_cons, if_pos rfl]
    have hacc : pre ++ [(new_name, d2)] ++ mid =
        pre ++ (new_name, d2) :: mid := by
      rw [List.append_assoc]; rfl
    rw [hacc, dict_insert_update pre mid new_name d1 d2 hnP,
        fold_seg old_name new_name post (pre ++ (new_name, d1) :: mid)
          (fun kv hk he => hoQ (he ▸ List.mem_map_of_mem Prod.fst hk))
          (fun kv hk => by
            rw [list_datasets_append, List.mem_append, not_or,
                list_datasets_cons, List.mem_cons, not_or]
            exact ⟨fun hp => hQP kv.1 (List.mem_map_of_mem Prod.fst hk) hp,
              fun he => hnQ (by
                have h2 := List.mem_map_of_mem Prod.fst hk
                rwa [he] at h2),
              fun hm => hQM kv.1 (List.mem_map_of_mem Prod.fst hk) hm⟩)
          hQ,
        List.append_assoc]
    rfl

/-- Witness for `claim_C10_rename_collision`: in the two-entry manager
`{a: d_a, b: d_b}` renaming `a` onto `b` leaves `{b: d_b}` and returns
true. -/
theorem claim_C10_witness :
    update_dataset [("a", d_a), ("b", d_b)] "a" "b" = ([("b", d_b)], true) :=
  (claim_C10_rename_collision "a" "b" (by decide)).1 [] [] [] d_a d_b
    (by decide)

end GripLab

